import Mathlib

/-!
Verification development for the web-worker transfer module
(src/util/web_worker_transfer.js): a shallow embedding of its value model,
type registry, `register`, `serialize` and `deserialize`, together with
theorems settling the specification claims.

Modelling conventions:
- JS values are the inductive `Value`.  Numbers are modelled as integers
  (no arithmetic is ever performed on them); dates and regexes are opaque
  scalars; an ArrayBuffer is identified by a numeric id (identity of the
  underlying allocation); a typed-array view carries its own id and the id
  of its owning buffer (view contents are not modelled: the module treats
  views opaquely).  Boxed scalars (new Boolean/Number/String) are not
  modelled; they behave exactly like the corresponding scalars in the
  source (returned as-is by both directions).
- A JS object is `Value.vobj className props`: `className` is
  `input.constructor.name` (the empty string models an anonymous class),
  `props` its own enumerable properties in insertion order.  JS objects
  never repeat a key; enumeration order of non-index keys is insertion
  order, which is what the property lists record (integer-like keys, which
  JS enumerates first, do not occur in this development).
- Thrown exceptions are `Except.error` carrying the message.
- The side-effecting `transferables` array is threaded as explicit state
  `Option TransferList`; `none` models the argument being omitted.
-/

namespace WebWorkerTransfer

mutual

/-- The JS values the module operates on. -/
inductive Value where
  | vundef
  | vnull
  | vbool (b : Bool)
  | vnum (n : Int)
  | vstr (s : String)
  | vdate (time : Int)
  | vregex (pattern : String)
  | vbuffer (bufferId : Nat)
  | vview (viewId : Nat) (bufferId : Nat)
  | varr (elems : ValueList)
  | vobj (className : String) (props : PropList)
  | vfunc (funId : Nat)

/-- A JS array of values. -/
inductive ValueList where
  | nil
  | cons (head : Value) (tail : ValueList)

/-- The own enumerable properties of a JS object, in enumeration order. -/
inductive PropList where
  | nil
  | cons (key : String) (val : Value) (tail : PropList)

end

/-- Transferables: ArrayBuffers identified by their numeric id. -/
abbrev TransferList := List Nat

/-- A registrable class: its `name`, and its optional static
`serialize`/`deserialize` hooks.  A static serialize hook receives the
instance and the transferables argument; per the collaborator contract it
mutates the shared transferables array only by pushing buffers, so its
effect is modelled as the list of buffer ids it appends.  A static
deserialize hook maps the opaque payload back to an instance. -/
structure Klass where
  name : String
  serializeHook : Option (Value → Option TransferList → Value × List Nat)
  deserializeHook : Option (Value → Value)

/-- One registry entry: the class plus its omit and shallow lists. -/
structure RegEntry where
  klass : Klass
  omitList : List String
  shallow : List String

/-- The registry: a string-keyed table, in registration order. -/
abbrev Registry := List (String × RegEntry)

/-- registry[name]: first binding for the key, if any. -/
def lookupReg : Registry → String → Option RegEntry
  | [], _ => none
  | (k, e) :: rest, n => if k = n then some e else lookupReg rest n

/-- The optional second argument of register: RegisterOptions. -/
structure RegisterOptions where
  omitList : Option (List String)
  shallow : Option (List String)

/-- register(klass, options): asserts the class has a name and is not yet
registered, then stores the descriptor (options.omit or [],
options.shallow or []) under the name.  A failed assert throws before the
registry is touched. -/
def register (reg : Registry) (klass : Klass) (options : RegisterOptions) :
    Except String Registry :=
  let name := klass.name
  if name = "" then
    Except.error "AssertionError: name"
  else if (lookupReg reg name).isSome then
    Except.error (name ++ " is already registered.")
  else
    Except.ok (reg ++ [(name, { klass := klass
                              , omitList := options.omitList.getD []
                              , shallow := options.shallow.getD [] })])

/-- Own-property lookup on a property list (first match). -/
def propGet : PropList → String → Option Value
  | PropList.nil, _ => none
  | PropList.cons k v rest, key => if k = key then some v else propGet rest key

/-- The keys of a property list, in order. -/
def propKeys : PropList → List String
  | PropList.nil => []
  | PropList.cons k _ rest => k :: propKeys rest

/-- JS property read `o.k` on an object: an absent property reads as
undefined. -/
def getOwn (p : PropList) (k : String) : Value :=
  (propGet p k).getD Value.vundef

/-- JS truthiness of a value (numbers are integers in the model, so NaN
does not arise). -/
def truthy : Value → Bool
  | Value.vundef => false
  | Value.vnull => false
  | Value.vbool b => b
  | Value.vnum n => n != 0
  | Value.vstr s => s != ""
  | _ => true

/-- JS coercion of a value to a property key, as used by `registry[name]`.
String keys (the only ones that arise: class names are identifier
strings) are exact; the coercions of exotic values are modelled opaquely
by forms that cannot collide with a class name. -/
def jsKeyString : Value → String
  | Value.vstr s => s
  | Value.vnum n => toString n
  | Value.vbool b => if b then "true" else "false"
  | Value.vnull => "null"
  | Value.vundef => "undefined"
  | Value.vdate t => "date:" ++ toString t
  | Value.vregex p => "/" ++ p ++ "/"
  | Value.vbuffer _ => "[object ArrayBuffer]"
  | Value.vview _ _ => "view:"
  | Value.varr _ => "array:"
  | Value.vobj _ _ => "[object Object]"
  | Value.vfunc i => "function:" ++ toString i

/-- JS property read `v[k]` for a non-index key `k` (here only the key
_serialized, which is never an array index): reading from undefined or
null throws a TypeError; an object yields its own property or undefined;
every other value yields undefined. -/
def jsGet : Value → String → Except String Value
  | Value.vundef, k =>
      Except.error ("TypeError: cannot read properties of undefined (reading " ++ k ++ ")")
  | Value.vnull, k =>
      Except.error ("TypeError: cannot read properties of null (reading " ++ k ++ ")")
  | Value.vobj _ props, k => Except.ok (getOwn props k)
  | _, _ => Except.ok Value.vundef

/-- transferables.push(buffer): appends when the list was supplied. -/
def pushT : Option TransferList → Nat → Option TransferList
  | none, _ => none
  | some l, b => some (l ++ [b])

/-- Appending the buffers a custom hook pushed onto the transferables
array (no effect when the list was not supplied). -/
def extendT : Option TransferList → List Nat → Option TransferList
  | none, _ => none
  | some l, u => some (l ++ u)

/-- The transport record with fields name and properties returned by serialize for a
registered instance: a plain object literal (constructor Object) holding
the class name under key name and the properties table, itself a plain
object literal, under key properties. -/
def mkRecord (name : String) (properties : PropList) : Value :=
  Value.vobj "Object"
    (PropList.cons "name" (Value.vstr name)
      (PropList.cons "properties" (Value.vobj "Object" properties) PropList.nil))

mutual

/-- serialize(input, transferables): scalars pass through; an ArrayBuffer
is pushed onto transferables and passed through; a view is passed through
as the view while its owning buffer is pushed; arrays serialize
elementwise in order; a named registered object becomes a transport
record via its static serialize hook or the generic walk of its own
enumerable properties (omit-listed keys dropped, shallow-listed keys
copied by direct assignment); anything else throws. -/
def serialize (reg : Registry) (input : Value) (transferables : Option TransferList) :
    Except String (Value × Option TransferList) :=
  match input with
  | Value.vnull | Value.vundef | Value.vbool _ | Value.vnum _ | Value.vstr _
  | Value.vdate _ | Value.vregex _ =>
      Except.ok (input, transferables)
  | Value.vbuffer bufId =>
      Except.ok (input, pushT transferables bufId)
  | Value.vview viewId bufId =>
      Except.ok (Value.vview viewId bufId, pushT transferables bufId)
  | Value.varr elems =>
      match serializeList reg elems transferables with
      | Except.error e => Except.error e
      | Except.ok (s, t) => Except.ok (Value.varr s, t)
  | Value.vobj name props =>
      if name = "" then
        Except.error "can\x27t serialize object of anonymous class"
      else
        match lookupReg reg name with
        | none => Except.error ("can\x27t serialize unregistered class " ++ name)
        | some entry =>
            -- the constructor of the instance is the registered class of that name
            match entry.klass.serializeHook with
            | some hook =>
                let r := hook (Value.vobj name props) transferables
                Except.ok (mkRecord name (PropList.cons "_serialized" r.1 PropList.nil),
                           extendT transferables r.2)
            | none =>
                match serializeProps reg entry.omitList entry.shallow props transferables with
                | Except.error e => Except.error e
                | Except.ok (sprops, t) => Except.ok (mkRecord name sprops, t)
  | Value.vfunc _ => Except.error "can\x27t serialize object of type function"

/-- Elementwise serialization of an array, in order, threading
transferables left to right. -/
def serializeList (reg : Registry) (l : ValueList) (transferables : Option TransferList) :
    Except String (ValueList × Option TransferList) :=
  match l with
  | ValueList.nil => Except.ok (ValueList.nil, transferables)
  | ValueList.cons v rest =>
      match serialize reg v transferables with
      | Except.error e => Except.error e
      | Except.ok (sv, t1) =>
          match serializeList reg rest t1 with
          | Except.error e => Except.error e
          | Except.ok (srest, t2) => Except.ok (ValueList.cons sv srest, t2)

/-- The generic property walk of serialize: for each own enumerable key in
order, skip it if omit-listed, store the raw value if shallow-listed, and
otherwise store its serialization.  A fresh properties object assigned
keys from a single enumeration of a JS object grows by pure appending,
which the ordered list construction mirrors. -/
def serializeProps (reg : Registry) (omitL shallowL : List String) (props : PropList)
    (transferables : Option TransferList) :
    Except String (PropList × Option TransferList) :=
  match props with
  | PropList.nil => Except.ok (PropList.nil, transferables)
  | PropList.cons k v rest =>
      if k ∈ omitL then
        serializeProps reg omitL shallowL rest transferables
      else if k ∈ shallowL then
        match serializeProps reg omitL shallowL rest transferables with
        | Except.error e => Except.error e
        | Except.ok (srest, t2) => Except.ok (PropList.cons k v srest, t2)
      else
        match serialize reg v transferables with
        | Except.error e => Except.error e
        | Except.ok (sv, t1) =>
            match serializeProps reg omitL shallowL rest t1 with
            | Except.error e => Except.error e
            | Except.ok (srest, t2) => Except.ok (PropList.cons k sv srest, t2)

end

/-- The own enumerable keys of a JS string are its character indices, and
reading an index yields the one-character string at it.  Reconstruction
over a string-valued properties field therefore yields the index-keyed
character table whatever the shallow list says, since a one-character
string deserializes to itself. -/
def strIndexProps : List Char → Nat → PropList
  | [], _ => PropList.nil
  | c :: rest, i =>
      PropList.cons (toString i) (Value.vstr (String.mk [c])) (strIndexProps rest (i + 1))

mutual

/-- deserialize(input): scalars, buffers and views pass through; arrays
deserialize elementwise in order; any other object is destructured as a
transport record: a falsy name throws the anonymous-class error, then the
registry entry is destructured from registry[name] - which throws a
TypeError when the name is unregistered, making the unregistered-class
check on the following source line unreachable (a registered entry always
holds a class object, which is truthy); a static deserialize hook is
applied to the _serialized payload, and otherwise a bare instance of the
class is built by assigning every key of the properties table (shallow
keys directly, the rest recursively); a function throws. -/
def deserialize (reg : Registry) (input : Value) : Except String Value :=
  match input with
  | Value.vnull | Value.vundef | Value.vbool _ | Value.vnum _ | Value.vstr _
  | Value.vdate _ | Value.vregex _ | Value.vbuffer _ | Value.vview _ _ =>
      Except.ok input
  | Value.varr elems =>
      match deserializeList reg elems with
      | Except.error e => Except.error e
      | Except.ok ds => Except.ok (Value.varr ds)
  | Value.vobj _ props =>
      let name := getOwn props "name"
      if truthy name then
        match lookupReg reg (jsKeyString name) with
        | none =>
            -- the const klass destructuring of registry[name] reads undefined here
            Except.error "TypeError: cannot destructure property klass of undefined"
        | some entry =>
            match entry.klass.deserializeHook with
            | some hook =>
                match jsGet (getOwn props "properties") "_serialized" with
                | Except.error e => Except.error e
                | Except.ok payload => Except.ok (hook payload)
            | none => deserializeFind reg entry props
      else
        Except.error "can\x27t deserialize object of anonymous class"
  | Value.vfunc _ => Except.error "can\x27t deserialize object of type function"

/-- Elementwise deserialization of an array, in order. -/
def deserializeList (reg : Registry) (l : ValueList) : Except String ValueList :=
  match l with
  | ValueList.nil => Except.ok ValueList.nil
  | ValueList.cons v rest =>
      match deserialize reg v with
      | Except.error e => Except.error e
      | Except.ok dv =>
          match deserializeList reg rest with
          | Except.error e => Except.error e
          | Except.ok drest => Except.ok (ValueList.cons dv drest)

/-- Reading the own property `properties` of the record (first matching key)
and handing it to the generic reconstruction; when the key is absent the
properties value is undefined and Object.keys(undefined) throws. -/
def deserializeFind (reg : Registry) (entry : RegEntry) (props : PropList) :
    Except String Value :=
  match props with
  | PropList.nil =>
      Except.error "TypeError: cannot convert undefined or null to object"
  | PropList.cons k v rest =>
      if k = "properties" then deserializeRecordProps reg entry v
      else deserializeFind reg entry rest

/-- Generic reconstruction from a properties value: allocate a bare
instance of the registered class (Object.create(klass.prototype), whose
constructor name is the class name) and assign each key enumerated by
Object.keys(properties).  Object.keys throws on undefined and null,
enumerates the own keys of an object, the element indices of an array or a string,
and nothing on any other value; view contents are opaque in the model, so
a view-valued properties field contributes no keys. -/
def deserializeRecordProps (reg : Registry) (entry : RegEntry) (properties : Value) :
    Except String Value :=
  match properties with
  | Value.vundef | Value.vnull =>
      Except.error "TypeError: cannot convert undefined or null to object"
  | Value.vobj _ pl =>
      match deserializeAssign reg entry.shallow pl with
      | Except.error e => Except.error e
      | Except.ok rp => Except.ok (Value.vobj entry.klass.name rp)
  | Value.varr l =>
      match deserializeIdx reg entry.shallow 0 l with
      | Except.error e => Except.error e
      | Except.ok rp => Except.ok (Value.vobj entry.klass.name rp)
  | Value.vstr s => Except.ok (Value.vobj entry.klass.name (strIndexProps s.data 0))
  | _ => Except.ok (Value.vobj entry.klass.name PropList.nil)

/-- The assignment loop of deserialize over an object-valued properties
table: for each key in enumeration order, assign the raw value if the key
is shallow-listed and its deserialization otherwise.  Assignments of the
distinct keys of a single enumeration onto a bare instance grow it by
pure appending, which the ordered list construction mirrors. -/
def deserializeAssign (reg : Registry) (shallowL : List String) (pl : PropList) :
    Except String PropList :=
  match pl with
  | PropList.nil => Except.ok PropList.nil
  | PropList.cons k v rest =>
      if k ∈ shallowL then
        match deserializeAssign reg shallowL rest with
        | Except.error e => Except.error e
        | Except.ok drest => Except.ok (PropList.cons k v drest)
      else
        match deserialize reg v with
        | Except.error e => Except.error e
        | Except.ok dv =>
            match deserializeAssign reg shallowL rest with
            | Except.error e => Except.error e
            | Except.ok drest => Except.ok (PropList.cons k dv drest)

/-- The assignment loop over an array-valued properties table: the
enumerated keys are the element indices in order. -/
def deserializeIdx (reg : Registry) (shallowL : List String) (i : Nat) (l : ValueList) :
    Except String PropList :=
  match l with
  | ValueList.nil => Except.ok PropList.nil
  | ValueList.cons v rest =>
      if toString i ∈ shallowL then
        match deserializeIdx reg shallowL (i + 1) rest with
        | Except.error e => Except.error e
        | Except.ok rp => Except.ok (PropList.cons (toString i) v rp)
      else
        match deserialize reg v with
        | Except.error e => Except.error e
        | Except.ok dv =>
            match deserializeIdx reg shallowL (i + 1) rest with
            | Except.error e => Except.error e
            | Except.ok rp => Except.ok (PropList.cons (toString i) dv rp)

end

/-- deserialize after serialize, with no transferables list supplied. -/
def roundtrip (reg : Registry) (v : Value) : Except String Value :=
  match serialize reg v none with
  | Except.error e => Except.error e
  | Except.ok (s, _) => deserialize reg s

mutual

/-- The round-trip image of a value: omit-listed properties of registered
instances are removed, recursively except under shallow-listed keys,
whose values travel verbatim. -/
def scrub (reg : Registry) (v : Value) : Value :=
  match v with
  | Value.varr l => Value.varr (scrubList reg l)
  | Value.vobj name props =>
      match lookupReg reg name with
      | some entry => Value.vobj name (scrubProps reg entry.omitList entry.shallow props)
      | none => Value.vobj name props
  | _ => v

/-- Elementwise scrubbing of an array. -/
def scrubList (reg : Registry) (l : ValueList) : ValueList :=
  match l with
  | ValueList.nil => ValueList.nil
  | ValueList.cons v rest => ValueList.cons (scrub reg v) (scrubList reg rest)

/-- Scrubbing of a property table under given omit and shallow lists. -/
def scrubProps (reg : Registry) (omitL shallowL : List String) (pl : PropList) : PropList :=
  match pl with
  | PropList.nil => PropList.nil
  | PropList.cons k v rest =>
      if k ∈ omitL then scrubProps reg omitL shallowL rest
      else if k ∈ shallowL then PropList.cons k v (scrubProps reg omitL shallowL rest)
      else PropList.cons k (scrub reg v) (scrubProps reg omitL shallowL rest)

end

mutual

/-- A valid instance for the round-trip claim: a value every node of
which the engine can serialize and reconstruct generically.  Scalars,
buffers and views are valid; arrays of valid values are valid; an object
is valid when its class name is nonempty and registered under that very
name without custom hooks, its keys are distinct (a JS object cannot
repeat a key), and each property that is neither omit- nor shallow-listed
is recursively valid (omitted properties are dropped before serialization
and shallow properties travel verbatim, so both may hold anything). -/
def goodValue (reg : Registry) (v : Value) : Bool :=
  match v with
  | Value.varr l => goodList reg l
  | Value.vobj name props =>
      name != "" &&
      (match lookupReg reg name with
       | none => false
       | some entry =>
           entry.klass.name == name &&
           entry.klass.serializeHook.isNone &&
           entry.klass.deserializeHook.isNone &&
           decide ((propKeys props).Nodup) &&
           goodProps reg entry.omitList entry.shallow props)
  | Value.vfunc _ => false
  | _ => true

/-- Elementwise validity of an array. -/
def goodList (reg : Registry) (l : ValueList) : Bool :=
  match l with
  | ValueList.nil => true
  | ValueList.cons v rest => goodValue reg v && goodList reg rest

/-- Validity of a property table under given omit and shallow lists. -/
def goodProps (reg : Registry) (omitL shallowL : List String) (pl : PropList) : Bool :=
  match pl with
  | PropList.nil => true
  | PropList.cons k v rest =>
      (if k ∈ omitL then true
       else if k ∈ shallowL then true
       else goodValue reg v) &&
      goodProps reg omitL shallowL rest

end

/-- The plain-object class, registered first at startup. -/
def objectKlass : Klass :=
  { name := "Object", serializeHook := none, deserializeHook := none }

/-- A hook-free expression class registered with an omit list, mirroring
register(StyleExpression, omit [_evaluator]) at startup. -/
def styleExpressionKlass : Klass :=
  { name := "StyleExpression", serializeHook := none, deserializeHook := none }

/-- A hook-free class registered with a shallow list. -/
def gridKlass : Klass :=
  { name := "Grid", serializeHook := none, deserializeHook := none }

/-- A class with static serialize/deserialize hooks, as the
StructArray-backed types provide. -/
def hookedKlass : Klass :=
  { name := "Hooked"
  , serializeHook := some (fun _ _ => (Value.vstr "opaque", [11]))
  , deserializeHook := some (fun payload => Value.varr (ValueList.cons payload ValueList.nil)) }

/-- The registry entry of the plain-object class. -/
def objectEntry : RegEntry :=
  { klass := objectKlass, omitList := [], shallow := [] }

/-- The registry entry mirroring the startup call
register(StyleExpression, omit [_evaluator]). -/
def styleExpressionEntry : RegEntry :=
  { klass := styleExpressionKlass, omitList := ["_evaluator"], shallow := [] }

/-- The registry entry of a class with a shallow-listed property. -/
def gridEntry : RegEntry :=
  { klass := gridKlass, omitList := [], shallow := ["cells"] }

/-- The registry entry of the hook-carrying class. -/
def hookedEntry : RegEntry :=
  { klass := hookedKlass, omitList := [], shallow := [] }

/-- A concrete registry shaped like the startup registrations of the
source: the plain-object class, a class with an omit list, a class with a
shallow list, and a class with custom hooks. -/
def demoRegistry : Registry :=
  [ ("Object", objectEntry)
  , ("StyleExpression", styleExpressionEntry)
  , ("Grid", gridEntry)
  , ("Hooked", hookedEntry) ]

/-- A StyleExpression instance whose omit-listed _evaluator property
holds a function, which the generic walk could not serialize. -/
def styleExprProps : PropList :=
  PropList.cons "expression" (Value.vstr "e")
    (PropList.cons "_evaluator" (Value.vfunc 0) PropList.nil)

/-- An array holding two distinct typed views over the same buffer. -/
def dupViewArr : Value :=
  Value.varr (ValueList.cons (Value.vview 0 7)
    (ValueList.cons (Value.vview 1 7) ValueList.nil))

/-- A hook-free class used to exercise register. -/
def fooKlass : Klass :=
  { name := "Foo", serializeHook := none, deserializeHook := none }

/-- Options carrying an omit list. -/
def fooOptions : RegisterOptions :=
  { omitList := some ["a"], shallow := none }

/-- Options with both fields absent. -/
def emptyOptions : RegisterOptions :=
  { omitList := none, shallow := none }

/-- The registry produced by registering fooKlass into an empty one. -/
def fooReg : Registry :=
  [("Foo", { klass := fooKlass, omitList := ["a"], shallow := [] })]

theorem extendT_nil (t : Option TransferList) : extendT t [] = t := by
  cases t <;> simp [extendT]

theorem extendT_extendT (t : Option TransferList) (u1 u2 : List Nat) :
    extendT (extendT t u1) u2 = extendT t (u1 ++ u2) := by
  cases t <;> simp [extendT]

theorem pushT_eq_extendT (t : Option TransferList) (b : Nat) :
    pushT t b = extendT t [b] := by
  cases t <;> simp [pushT, extendT]

mutual

/-- A successful serialize call only ever appends to the transferables
list it was given (and leaves an absent list absent). -/
theorem serialize_extends (reg : Registry) (v : Value) (t : Option TransferList)
    (r : Value) (t' : Option TransferList)
    (h : serialize reg v t = Except.ok (r, t')) : ∃ u, t' = extendT t u := by
  cases v with
  | vundef | vnull | vbool b | vnum n | vstr s | vdate d | vregex p =>
      refine ⟨[], ?_⟩
      simp only [serialize, Except.ok.injEq, Prod.mk.injEq] at h
      rw [extendT_nil, ← h.2]
  | vbuffer bufId =>
      refine ⟨[bufId], ?_⟩
      simp only [serialize, Except.ok.injEq, Prod.mk.injEq] at h
      rw [← pushT_eq_extendT, ← h.2]
  | vview viewId bufId =>
      refine ⟨[bufId], ?_⟩
      simp only [serialize, Except.ok.injEq, Prod.mk.injEq] at h
      rw [← pushT_eq_extendT, ← h.2]
  | varr elems =>
      simp only [serialize] at h
      split at h
      · exact absurd h (by simp)
      · rename_i s1 t1 hsl
        simp only [Except.ok.injEq, Prod.mk.injEq] at h
        obtain ⟨u, hu⟩ := serializeList_extends reg elems t s1 t1 hsl
        exact ⟨u, h.2 ▸ hu⟩
  | vobj name props =>
      simp only [serialize] at h
      split at h
      · exact absurd h (by simp)
      · split at h
        · exact absurd h (by simp)
        · rename_i entry hl
          split at h
          · rename_i hook hh
            simp only [Except.ok.injEq, Prod.mk.injEq] at h
            exact ⟨(hook (Value.vobj name props) t).2, h.2.symm⟩
          · split at h
            · exact absurd h (by simp)
            · rename_i sprops t2 hsp
              simp only [Except.ok.injEq, Prod.mk.injEq] at h
              obtain ⟨u, hu⟩ :=
                serializeProps_extends reg entry.omitList entry.shallow props t sprops t2 hsp
              exact ⟨u, h.2 ▸ hu⟩
  | vfunc i => exact absurd h (by simp [serialize])

/-- A successful elementwise serialization only ever appends to the
transferables list. -/
theorem serializeList_extends (reg : Registry) (l : ValueList) (t : Option TransferList)
    (r : ValueList) (t' : Option TransferList)
    (h : serializeList reg l t = Except.ok (r, t')) : ∃ u, t' = extendT t u := by
  cases l with
  | nil =>
      refine ⟨[], ?_⟩
      simp only [serializeList, Except.ok.injEq, Prod.mk.injEq] at h
      rw [extendT_nil, ← h.2]
  | cons v rest =>
      simp only [serializeList] at h
      split at h
      · exact absurd h (by simp)
      · rename_i sv t1 hs
        split at h
        · exact absurd h (by simp)
        · rename_i srest t2 hsl
          simp only [Except.ok.injEq, Prod.mk.injEq] at h
          obtain ⟨u1, hu1⟩ := serialize_extends reg v t sv t1 hs
          obtain ⟨u2, hu2⟩ := serializeList_extends reg rest t1 srest t2 hsl
          exact ⟨u1 ++ u2, by rw [← h.2, hu2, hu1, extendT_extendT]⟩

/-- A successful property walk only ever appends to the transferables
list. -/
theorem serializeProps_extends (reg : Registry) (omitL shallowL : List String)
    (props : PropList) (t : Option TransferList) (r : PropList) (t' : Option TransferList)
    (h : serializeProps reg omitL shallowL props t = Except.ok (r, t')) :
    ∃ u, t' = extendT t u := by
  cases props with
  | nil =>
      refine ⟨[], ?_⟩
      simp only [serializeProps, Except.ok.injEq, Prod.mk.injEq] at h
      rw [extendT_nil, ← h.2]
  | cons k v rest =>
      simp only [serializeProps] at h
      split at h
      · exact serializeProps_extends reg omitL shallowL rest t r t' h
      · split at h
        · split at h
          · exact absurd h (by simp)
          · rename_i srest t2 hsp
            simp only [Except.ok.injEq, Prod.mk.injEq] at h
            obtain ⟨u, hu⟩ := serializeProps_extends reg omitL shallowL rest t srest t2 hsp
            exact ⟨u, h.2 ▸ hu⟩
        · split at h
          · exact absurd h (by simp)
          · rename_i sv t1 hs
            split at h
            · exact absurd h (by simp)
            · rename_i srest t2 hsp
              simp only [Except.ok.injEq, Prod.mk.injEq] at h
              obtain ⟨u1, hu1⟩ := serialize_extends reg v t sv t1 hs
              obtain ⟨u2, hu2⟩ := serializeProps_extends reg omitL shallowL rest t1 srest t2 hsp
              exact ⟨u1 ++ u2, by rw [← h.2, hu2, hu1, extendT_extendT]⟩

end

mutual

/-- Serializing a valid value succeeds without touching an absent
transferables list, and deserializing the result reconstructs the value
with omit-listed properties removed. -/
theorem roundtrip_serialize (reg : Registry) (v : Value) (h : goodValue reg v = true) :
    ∃ s, serialize reg v none = Except.ok (s, none) ∧
         deserialize reg s = Except.ok (scrub reg v) := by
  cases v with
  | vundef => exact ⟨Value.vundef, rfl, rfl⟩
  | vnull => exact ⟨Value.vnull, rfl, rfl⟩
  | vbool b => exact ⟨Value.vbool b, rfl, rfl⟩
  | vnum n => exact ⟨Value.vnum n, rfl, rfl⟩
  | vstr s => exact ⟨Value.vstr s, rfl, rfl⟩
  | vdate d => exact ⟨Value.vdate d, rfl, rfl⟩
  | vregex p => exact ⟨Value.vregex p, rfl, rfl⟩
  | vbuffer bufId => exact ⟨Value.vbuffer bufId, rfl, rfl⟩
  | vview viewId bufId => exact ⟨Value.vview viewId bufId, rfl, rfl⟩
  | varr elems =>
      simp only [goodValue] at h
      obtain ⟨sl, hs, hd⟩ := roundtripList_serialize reg elems h
      exact ⟨Value.varr sl, by simp [serialize, hs], by simp [deserialize, hd, scrub]⟩
  | vobj name props =>
      simp only [goodValue, Bool.and_eq_true] at h
      obtain ⟨hn, h⟩ := h
      cases hl : lookupReg reg name with
      | none =>
          simp only [hl] at h
          exact absurd h (by simp)
      | some entry =>
        simp only [hl, Bool.and_eq_true, beq_iff_eq, Option.isNone_iff_eq_none,
          decide_eq_true_eq] at h
        obtain ⟨⟨⟨⟨hkn, hsh⟩, hdh⟩, hnd⟩, hgp⟩ := h
        have hn' : ¬ name = "" := by simpa using hn
        obtain ⟨sp, hsps, hspd⟩ := roundtripProps_serialize reg entry.omitList entry.shallow props hgp
        refine ⟨mkRecord name sp, ?_, ?_⟩
        · simp [serialize, hn', hl, hsh, hsps]
        · simp only [deserialize, mkRecord, getOwn, propGet]
          simp only [String.reduceEq, if_false, if_true, reduceIte, Option.getD_some]
          simp only [truthy, jsKeyString]
          rw [if_pos (by simpa using hn)]
          rw [hl]
          simp only [hdh]
          simp only [deserializeFind, String.reduceEq, if_false, reduceIte,
            deserializeRecordProps, hspd]
          simp [scrub, hl, hkn]
  | vfunc i => exact absurd h (by simp [goodValue])

/-- Elementwise round trip of a valid array. -/
theorem roundtripList_serialize (reg : Registry) (l : ValueList) (h : goodList reg l = true) :
    ∃ sl, serializeList reg l none = Except.ok (sl, none) ∧
          deserializeList reg sl = Except.ok (scrubList reg l) := by
  cases l with
  | nil => exact ⟨ValueList.nil, rfl, rfl⟩
  | cons v rest =>
      simp only [goodList, Bool.and_eq_true] at h
      obtain ⟨hv, hrest⟩ := h
      obtain ⟨sv, hvs, hvd⟩ := roundtrip_serialize reg v hv
      obtain ⟨sl, hs, hd⟩ := roundtripList_serialize reg rest hrest
      exact ⟨ValueList.cons sv sl,
        by simp [serializeList, hvs, hs],
        by simp [deserializeList, hvd, hd, scrubList]⟩

/-- Round trip of a valid property table: the serialized table walks back
into the scrubbed original. -/
theorem roundtripProps_serialize (reg : Registry) (omitL shallowL : List String)
    (props : PropList) (h : goodProps reg omitL shallowL props = true) :
    ∃ sp, serializeProps reg omitL shallowL props none = Except.ok (sp, none) ∧
          deserializeAssign reg shallowL sp = Except.ok (scrubProps reg omitL shallowL props) := by
  cases props with
  | nil => exact ⟨PropList.nil, rfl, rfl⟩
  | cons k v rest =>
      simp only [goodProps, Bool.and_eq_true] at h
      obtain ⟨hv, hrest⟩ := h
      by_cases ho : k ∈ omitL
      · obtain ⟨sp, hs, hd⟩ := roundtripProps_serialize reg omitL shallowL rest hrest
        exact ⟨sp, by simp [serializeProps, ho, hs],
          by simp [scrubProps, ho, hd]⟩
      · by_cases hshk : k ∈ shallowL
        · obtain ⟨sp, hs, hd⟩ := roundtripProps_serialize reg omitL shallowL rest hrest
          exact ⟨PropList.cons k v sp,
            by simp [serializeProps, ho, hshk, hs],
            by simp [deserializeAssign, hshk, hd, scrubProps, ho]⟩
        · rw [if_neg ho, if_neg hshk] at hv
          obtain ⟨sv, hvs, hvd⟩ := roundtrip_serialize reg v hv
          obtain ⟨sp, hs, hd⟩ := roundtripProps_serialize reg omitL shallowL rest hrest
          exact ⟨PropList.cons k sv sp,
            by simp [serializeProps, ho, hshk, hvs, hs],
            by simp [deserializeAssign, hshk, hvd, hd, scrubProps, ho]⟩

end

/-- Omit-listed keys are absent from a scrubbed property table. -/
theorem scrubProps_get_omitted (reg : Registry) (omitL shallowL : List String)
    (pl : PropList) (k : String) (hk : k ∈ omitL) :
    propGet (scrubProps reg omitL shallowL pl) k = none := by
  cases pl with
  | nil => simp [scrubProps, propGet]
  | cons k2 v rest =>
      have ih := scrubProps_get_omitted reg omitL shallowL rest k hk
      simp only [scrubProps]
      by_cases ho : k2 ∈ omitL
      · rw [if_pos ho]; exact ih
      · have hne : ¬ k2 = k := fun h => ho (h ▸ hk)
        rw [if_neg ho]
        by_cases hsh : k2 ∈ shallowL
        · rw [if_pos hsh]; simp only [propGet, if_neg hne]; exact ih
        · rw [if_neg hsh]; simp only [propGet, if_neg hne]; exact ih

/-- A key not in the omit list survives scrubbing with its value taken
verbatim when shallow-listed and scrubbed otherwise. -/
theorem scrubProps_get_kept (reg : Registry) (omitL shallowL : List String)
    (pl : PropList) (k : String) (hk : k ∉ omitL) :
    propGet (scrubProps reg omitL shallowL pl) k =
      (propGet pl k).map (fun p => if k ∈ shallowL then p else scrub reg p) := by
  cases pl with
  | nil => simp [scrubProps, propGet]
  | cons k2 v rest =>
      have ih := scrubProps_get_kept reg omitL shallowL rest k hk
      simp only [scrubProps, propGet]
      by_cases ho : k2 ∈ omitL
      · have hne : ¬ k2 = k := fun h => hk (h ▸ ho)
        rw [if_pos ho, if_neg hne]
        exact ih
      · rw [if_neg ho]
        by_cases hke : k2 = k
        · subst hke
          by_cases hsh : k2 ∈ shallowL
          · rw [if_pos hsh]
            simp [propGet, hsh]
          · rw [if_neg hsh]
            simp [propGet, hsh]
        · by_cases hsh : k2 ∈ shallowL
          · rw [if_pos hsh]
            simp only [propGet, if_neg hke]
            exact ih
          · rw [if_neg hsh]
            simp only [propGet, if_neg hke]
            exact ih

/-- Appending a fresh binding to a registry makes it found by lookup. -/
theorem lookupReg_append_self (reg : Registry) (n : String) (e : RegEntry)
    (h : lookupReg reg n = none) : lookupReg (reg ++ [(n, e)]) n = some e := by
  induction reg with
  | nil => simp [lookupReg]
  | cons p rest ih =>
      obtain ⟨k2, e2⟩ := p
      simp only [lookupReg, List.cons_append] at h ⊢
      by_cases hk : k2 = n
      · rw [if_pos hk] at h; exact absurd h (by simp)
      · rw [if_neg hk] at h ⊢; exact ih h

/-- The reconstruction loop assigns every key of the properties table
onto the result: shallow-listed keys keep their raw transport value, all
other keys are assigned their deserialization. -/
theorem deserializeAssign_get (reg : Registry) (shallowL : List String)
    (pl rp : PropList) (k : String) (w : Value)
    (h : deserializeAssign reg shallowL pl = Except.ok rp)
    (hk : propGet pl k = some w) :
    (k ∈ shallowL → propGet rp k = some w)
    ∧ (k ∉ shallowL → ∃ w2, deserialize reg w = Except.ok w2 ∧ propGet rp k = some w2) := by
  cases pl with
  | nil => simp [propGet] at hk
  | cons k2 v rest =>
      simp only [deserializeAssign] at h
      simp only [propGet] at hk
      by_cases hke : k2 = k
      · subst hke
        rw [if_pos rfl] at hk
        have hvw : v = w := by simpa using hk
        subst hvw
        by_cases hsh : k2 ∈ shallowL
        · rw [if_pos hsh] at h
          split at h
          · exact absurd h (by simp)
          · rename_i drest hdrest
            have hrp : rp = PropList.cons k2 v drest := by simpa using h.symm
            subst hrp
            refine ⟨fun _ => by simp [propGet], fun hns => absurd hsh hns⟩
        · rw [if_neg hsh] at h
          split at h
          · exact absurd h (by simp)
          · rename_i dv hdv
            split at h
            · exact absurd h (by simp)
            · rename_i drest hdrest
              have hrp : rp = PropList.cons k2 dv drest := by simpa using h.symm
              subst hrp
              exact ⟨fun hs => absurd hs hsh, fun _ => ⟨dv, hdv, by simp [propGet]⟩⟩
      · rw [if_neg hke] at hk
        by_cases hsh : k2 ∈ shallowL
        · rw [if_pos hsh] at h
          split at h
          · exact absurd h (by simp)
          · rename_i drest hdrest
            have hrp : rp = PropList.cons k2 v drest := by simpa using h.symm
            subst hrp
            have := deserializeAssign_get reg shallowL rest drest k w hdrest hk
            simpa [propGet, if_neg hke] using this
        · rw [if_neg hsh] at h
          split at h
          · exact absurd h (by simp)
          · rename_i dv hdv
            split at h
            · exact absurd h (by simp)
            · rename_i drest hdrest
              have hrp : rp = PropList.cons k2 dv drest := by simpa using h.symm
              subst hrp
              have := deserializeAssign_get reg shallowL rest drest k w hdrest hk
              simpa [propGet, if_neg hke] using this

/-- C1: Round-trip identity: for every valid instance of a registered
type (nonempty class name registered hook-free under that very name,
distinct keys, and every property that is neither omit- nor
shallow-listed itself valid - the collaborator contract), deserialize
after serialize succeeds, and on the reconstructed instance every
omit-listed property is absent while every other property is present
with the round-trip image of the original value: the value itself for
shallow-listed keys, its recursively scrubbed image (nested omit-listed
properties likewise removed) otherwise. -/
theorem claim1_roundtrip_identity (reg : Registry) (name : String) (props : PropList)
    (entry : RegEntry)
    (hg : goodValue reg (Value.vobj name props) = true)
    (he : lookupReg reg name = some entry) :
    ∃ w, roundtrip reg (Value.vobj name props) = Except.ok (Value.vobj name w) ∧
      (∀ k, k ∈ entry.omitList → propGet w k = none) ∧
      (∀ k, k ∉ entry.omitList → propGet w k =
        (propGet props k).map (fun p => if k ∈ entry.shallow then p else scrub reg p)) := by
  obtain ⟨s, hs, hd⟩ := roundtrip_serialize reg _ hg
  refine ⟨scrubProps reg entry.omitList entry.shallow props, ?_, ?_, ?_⟩
  · simp only [roundtrip, hs, hd, scrub, he]
  · intro k hk
    exact scrubProps_get_omitted reg entry.omitList entry.shallow props k hk
  · intro k hk
    exact scrubProps_get_kept reg entry.omitList entry.shallow props k hk

/-- Witness for C1 at a concrete StyleExpression instance whose
omit-listed _evaluator property holds a function. -/
theorem claim1_witness :
    ∃ w, roundtrip demoRegistry (Value.vobj "StyleExpression" styleExprProps)
        = Except.ok (Value.vobj "StyleExpression" w) ∧
      (∀ k, k ∈ styleExpressionEntry.omitList → propGet w k = none) ∧
      (∀ k, k ∉ styleExpressionEntry.omitList → propGet w k =
        (propGet styleExprProps k).map
          (fun p => if k ∈ styleExpressionEntry.shallow then p else scrub demoRegistry p)) :=
  claim1_roundtrip_identity demoRegistry "StyleExpression" styleExprProps
    styleExpressionEntry (by rfl) (by rfl)

/-- C2: at an unregistered class name, serialize rejects the instance
with the unregistered-class error, but deserialize of a transport record
naming an unregistered class fails with the TypeError thrown by
destructuring registry[name] (undefined) rather than with the
unregistered-class error of the explicit check in the source, which sits on the
next line and is unreachable. -/
theorem claim2_unregistered_behavior :
    serialize demoRegistry (Value.vobj "Ghost" PropList.nil) none
      = Except.error "can\x27t serialize unregistered class Ghost"
    ∧ deserialize demoRegistry (mkRecord "Ghost" PropList.nil)
      = Except.error "TypeError: cannot destructure property klass of undefined" :=
  ⟨rfl, rfl⟩

/-- C3 counterexample: serializing an array holding two distinct views
over buffer 7 appends that buffer to the transferables list twice - once
per view - not exactly once as the claim states. -/
theorem claim3_counterexample :
    serialize demoRegistry dupViewArr (some []) = Except.ok (dupViewArr, some [7, 7])
    ∧ ([7, 7] : List Nat).count 7 = 2
    ∧ ¬ (([7, 7] : List Nat).count 7 = 1) :=
  ⟨rfl, rfl, by decide⟩

/-- C3 amended: when a transferables list is supplied, serialize appends
the owning buffer once per binary value encountered: a raw buffer
appends itself, a typed view appends its owning buffer while the view
itself is returned as-is (the view object, not the raw buffer); a value
referencing the same buffer through two distinct views therefore appends
that buffer twice, once per view. -/
theorem claim3_amended_per_view (reg : Registry) (t : TransferList)
    (viewId viewId2 bufId : Nat) :
    serialize reg (Value.vview viewId bufId) (some t)
      = Except.ok (Value.vview viewId bufId, some (t ++ [bufId]))
    ∧ serialize reg (Value.vbuffer bufId) (some t)
      = Except.ok (Value.vbuffer bufId, some (t ++ [bufId]))
    ∧ serialize reg (Value.varr (ValueList.cons (Value.vview viewId bufId)
        (ValueList.cons (Value.vview viewId2 bufId) ValueList.nil))) (some t)
      = Except.ok (Value.varr (ValueList.cons (Value.vview viewId bufId)
          (ValueList.cons (Value.vview viewId2 bufId) ValueList.nil)),
          some (t ++ [bufId, bufId])) := by
  refine ⟨rfl, rfl, ?_⟩
  simp [serialize, serializeList, pushT]

/-- C4: once register has succeeded for a name, registering another class
of the same name fails with the already-registered error and the registry
still maps the name to exactly the descriptor stored by the first call
(the first class, its omit list or empty, its shallow list or empty). -/
theorem claim4_duplicate_registration (reg reg2 : Registry) (k1 k2 : Klass)
    (o1 o2 : RegisterOptions)
    (h1 : register reg k1 o1 = Except.ok reg2) (hn : k2.name = k1.name) :
    register reg2 k2 o2 = Except.error (k1.name ++ " is already registered.")
    ∧ lookupReg reg2 k1.name =
        some { klass := k1, omitList := o1.omitList.getD []
             , shallow := o1.shallow.getD [] } := by
  simp only [register] at h1
  split at h1
  · exact absurd h1 (by simp)
  · split at h1
    · exact absurd h1 (by simp)
    · rename_i hne hns
      simp only [Except.ok.injEq] at h1
      have hnone : lookupReg reg k1.name = none := by
        cases hlk : lookupReg reg k1.name with
        | none => rfl
        | some e => exact absurd (by simp [hlk]) hns
      have hl2 : lookupReg reg2 k1.name =
          some { klass := k1, omitList := o1.omitList.getD []
               , shallow := o1.shallow.getD [] } := by
        rw [← h1]
        exact lookupReg_append_self reg k1.name _ hnone
      refine ⟨?_, hl2⟩
      simp only [register, hn]
      rw [if_neg hne, hl2]
      simp

/-- Witness for C4: registering fooKlass twice. -/
theorem claim4_witness :
    register fooReg fooKlass emptyOptions
      = Except.error (fooKlass.name ++ " is already registered.")
    ∧ lookupReg fooReg fooKlass.name =
        some { klass := fooKlass, omitList := fooOptions.omitList.getD []
             , shallow := fooOptions.shallow.getD [] } :=
  claim4_duplicate_registration [] fooReg fooKlass fooKlass fooOptions emptyOptions
    (by rfl) rfl

/-- C5: for a registered type with static hooks, serialize returns a
record whose properties hold only the payload of the serialize hook under
the key _serialized, with the pushes of the hook appended to the
transferables list; the output of the engine depends on the instance only
through the hook (it never walks the properties itself); and deserialize
returns the result of the deserialize hook on the _serialized payload
directly. -/
theorem claim5_hook_bypass (reg : Registry) (name : String) (props : PropList)
    (entry : RegEntry) (hookS : Value → Option TransferList → Value × List Nat)
    (hookD : Value → Value) (t : Option TransferList)
    (hn : name ≠ "")
    (he : lookupReg reg name = some entry)
    (hs : entry.klass.serializeHook = some hookS)
    (hd : entry.klass.deserializeHook = some hookD) :
    serialize reg (Value.vobj name props) t
      = Except.ok (mkRecord name
          (PropList.cons "_serialized" (hookS (Value.vobj name props) t).1 PropList.nil),
          extendT t (hookS (Value.vobj name props) t).2)
    ∧ (∀ props2, hookS (Value.vobj name props2) t = hookS (Value.vobj name props) t →
        serialize reg (Value.vobj name props2) t = serialize reg (Value.vobj name props) t)
    ∧ (∀ rprops, deserialize reg (mkRecord name rprops)
        = Except.ok (hookD (getOwn rprops "_serialized"))) := by
  refine ⟨?_, ?_, ?_⟩
  · simp [serialize, hn, he, hs]
  · intro props2 heq
    simp [serialize, hn, he, hs, heq]
  · intro rprops
    simp only [deserialize, mkRecord, getOwn, propGet]
    simp only [String.reduceEq, reduceIte, Option.getD_some]
    simp only [truthy, jsKeyString]
    rw [if_pos (by simpa using hn)]
    rw [he]
    simp [hd, jsGet, getOwn]

/-- Witness for C5 at the hook-carrying demo class. -/
theorem claim5_witness :
    serialize demoRegistry
        (Value.vobj "Hooked" (PropList.cons "x" (Value.vfunc 9) PropList.nil)) (some [5])
      = Except.ok (mkRecord "Hooked"
          (PropList.cons "_serialized" (Value.vstr "opaque") PropList.nil), some [5, 11])
    ∧ deserialize demoRegistry
        (mkRecord "Hooked" (PropList.cons "_serialized" (Value.vnum 3) PropList.nil))
      = Except.ok (Value.varr (ValueList.cons (Value.vnum 3) ValueList.nil)) :=
  ⟨(claim5_hook_bypass demoRegistry "Hooked"
      (PropList.cons "x" (Value.vfunc 9) PropList.nil) hookedEntry _ _ (some [5])
      (by decide) rfl rfl rfl).1,
   (claim5_hook_bypass demoRegistry "Hooked"
      (PropList.cons "x" (Value.vfunc 9) PropList.nil) hookedEntry _ _ (some [5])
      (by decide) rfl rfl rfl).2.2
     (PropList.cons "_serialized" (Value.vnum 3) PropList.nil)⟩

/-- C6: scalar passthrough: null, booleans, numbers, strings, dates and
regexes are returned unchanged by serialize (with the transferables
state untouched) and by deserialize. -/
theorem claim6_scalar_passthrough (reg : Registry) (t : Option TransferList) :
    (serialize reg Value.vnull t = Except.ok (Value.vnull, t)
      ∧ deserialize reg Value.vnull = Except.ok Value.vnull)
    ∧ (∀ b, serialize reg (Value.vbool b) t = Except.ok (Value.vbool b, t)
      ∧ deserialize reg (Value.vbool b) = Except.ok (Value.vbool b))
    ∧ (∀ n, serialize reg (Value.vnum n) t = Except.ok (Value.vnum n, t)
      ∧ deserialize reg (Value.vnum n) = Except.ok (Value.vnum n))
    ∧ (∀ s, serialize reg (Value.vstr s) t = Except.ok (Value.vstr s, t)
      ∧ deserialize reg (Value.vstr s) = Except.ok (Value.vstr s))
    ∧ (∀ d, serialize reg (Value.vdate d) t = Except.ok (Value.vdate d, t)
      ∧ deserialize reg (Value.vdate d) = Except.ok (Value.vdate d))
    ∧ (∀ p, serialize reg (Value.vregex p) t = Except.ok (Value.vregex p, t)
      ∧ deserialize reg (Value.vregex p) = Except.ok (Value.vregex p)) :=
  ⟨⟨rfl, rfl⟩, fun _ => ⟨rfl, rfl⟩, fun _ => ⟨rfl, rfl⟩, fun _ => ⟨rfl, rfl⟩,
   fun _ => ⟨rfl, rfl⟩, fun _ => ⟨rfl, rfl⟩⟩

/-- C7: order preservation: a three-element array serializes to the array
of the serialized elements in the same order (threading transferables
left to right), deserializing that array yields the round-trip images of
the elements in the same order, and the empty array serializes to the empty
array. -/
theorem claim7_order_preservation (reg : Registry) (a b c a2 b2 c2 a3 b3 c3 : Value)
    (t0 t1 t2 t3 : Option TransferList)
    (ha : serialize reg a t0 = Except.ok (a2, t1))
    (hb : serialize reg b t1 = Except.ok (b2, t2))
    (hc : serialize reg c t2 = Except.ok (c2, t3))
    (ha2 : deserialize reg a2 = Except.ok a3)
    (hb2 : deserialize reg b2 = Except.ok b3)
    (hc2 : deserialize reg c2 = Except.ok c3) :
    serialize reg (Value.varr (ValueList.cons a (ValueList.cons b
        (ValueList.cons c ValueList.nil)))) t0
      = Except.ok (Value.varr (ValueList.cons a2 (ValueList.cons b2
          (ValueList.cons c2 ValueList.nil))), t3)
    ∧ deserialize reg (Value.varr (ValueList.cons a2 (ValueList.cons b2
        (ValueList.cons c2 ValueList.nil))))
      = Except.ok (Value.varr (ValueList.cons a3 (ValueList.cons b3
          (ValueList.cons c3 ValueList.nil))))
    ∧ serialize reg (Value.varr ValueList.nil) t0
      = Except.ok (Value.varr ValueList.nil, t0) := by
  refine ⟨?_, ?_, rfl⟩
  · simp [serialize, serializeList, ha, hb, hc]
  · simp [deserialize, deserializeList, ha2, hb2, hc2]

/-- Witness for C7 at a concrete array of a number, a string and a
buffer. -/
theorem claim7_witness :
    serialize demoRegistry (Value.varr (ValueList.cons (Value.vnum 1)
        (ValueList.cons (Value.vstr "x") (ValueList.cons (Value.vbuffer 7) ValueList.nil))))
        (some [])
      = Except.ok (Value.varr (ValueList.cons (Value.vnum 1)
          (ValueList.cons (Value.vstr "x") (ValueList.cons (Value.vbuffer 7) ValueList.nil))),
          some [7])
    ∧ deserialize demoRegistry (Value.varr (ValueList.cons (Value.vnum 1)
        (ValueList.cons (Value.vstr "x") (ValueList.cons (Value.vbuffer 7) ValueList.nil))))
      = Except.ok (Value.varr (ValueList.cons (Value.vnum 1)
          (ValueList.cons (Value.vstr "x") (ValueList.cons (Value.vbuffer 7) ValueList.nil))))
    ∧ serialize demoRegistry (Value.varr ValueList.nil) (some [])
      = Except.ok (Value.varr ValueList.nil, some []) :=
  claim7_order_preservation demoRegistry
    (Value.vnum 1) (Value.vstr "x") (Value.vbuffer 7)
    (Value.vnum 1) (Value.vstr "x") (Value.vbuffer 7)
    (Value.vnum 1) (Value.vstr "x") (Value.vbuffer 7)
    (some []) (some []) (some []) (some [7])
    rfl rfl rfl rfl rfl rfl

/-- C8: anonymous-type rejection: serialize fails with the
anonymous-class error on any object whose constructor name is empty, and
deserialize fails with the anonymous-class error on any transport value
whose name property is absent (undefined) or the empty string. -/
theorem claim8_anonymous_rejection (reg : Registry) :
    (∀ props t, serialize reg (Value.vobj "" props) t
        = Except.error "can\x27t serialize object of anonymous class")
    ∧ (∀ cn rprops,
        getOwn rprops "name" = Value.vundef ∨ getOwn rprops "name" = Value.vstr "" →
        deserialize reg (Value.vobj cn rprops)
          = Except.error "can\x27t deserialize object of anonymous class") := by
  constructor
  · intro props t
    simp [serialize]
  · intro cn rprops h
    rcases h with h | h <;> simp [deserialize, h, truthy]

/-- Witness for C8: an anonymous instance and a record without a name. -/
theorem claim8_witness :
    serialize demoRegistry (Value.vobj "" PropList.nil) none
      = Except.error "can\x27t serialize object of anonymous class"
    ∧ deserialize demoRegistry
        (Value.vobj "Object"
          (PropList.cons "properties" (Value.vobj "Object" PropList.nil) PropList.nil))
      = Except.error "can\x27t deserialize object of anonymous class" :=
  ⟨(claim8_anonymous_rejection demoRegistry).1 PropList.nil none,
   (claim8_anonymous_rejection demoRegistry).2 "Object"
     (PropList.cons "properties" (Value.vobj "Object" PropList.nil) PropList.nil)
     (Or.inl rfl)⟩

/-- C9: effect frame of serialize: the embedding is pure in its input (the
source only reads it), and on a successful call the supplied
transferables list is only extended - every prior element survives
unchanged, in order, as a prefix - while with no list supplied there is no
transferables effect at all. -/
theorem claim9_effect_frame (reg : Registry) (v : Value) (t : TransferList) :
    (∀ r t2, serialize reg v (some t) = Except.ok (r, t2) → ∃ u, t2 = some (t ++ u))
    ∧ (∀ r t2, serialize reg v none = Except.ok (r, t2) → t2 = none) := by
  constructor
  · intro r t2 h
    obtain ⟨u, hu⟩ := serialize_extends reg v (some t) r t2 h
    exact ⟨u, by simpa [extendT] using hu⟩
  · intro r t2 h
    obtain ⟨u, hu⟩ := serialize_extends reg v none r t2 h
    simpa [extendT] using hu

/-- Witness for C9: serializing a view on top of a prior transferables
element. -/
theorem claim9_witness :
    ∃ u, (some ([5, 7] : TransferList) : Option TransferList) = some ([5] ++ u) :=
  (claim9_effect_frame demoRegistry (Value.vview 0 7) [5]).1 (Value.vview 0 7)
    (some [5, 7]) rfl

/-- C10: deserialize does not consult the omit list: every key present in
the properties table of a transport record - an omit-listed key of a
hand-crafted record included - is assigned onto the reconstructed
instance, directly when shallow-listed and after recursive
deserialization otherwise. -/
theorem claim10_omit_not_consulted (reg : Registry) (name cn : String)
    (entry : RegEntry) (props rp : PropList) (k : String) (w : Value)
    (he : lookupReg reg name = some entry)
    (hd : entry.klass.deserializeHook = none)
    (hr : deserialize reg (mkRecord name props) = Except.ok (Value.vobj cn rp))
    (hk : propGet props k = some w) :
    (k ∈ entry.shallow → propGet rp k = some w)
    ∧ (k ∉ entry.shallow → ∃ w2, deserialize reg w = Except.ok w2
        ∧ propGet rp k = some w2) := by
  by_cases hn : name = ""
  · rw [hn] at hr
    simp [deserialize, mkRecord, getOwn, propGet, truthy] at hr
  · simp only [deserialize, mkRecord, getOwn, propGet] at hr
    simp only [String.reduceEq, reduceIte, Option.getD_some] at hr
    simp only [truthy, jsKeyString] at hr
    rw [if_pos (by simpa using hn)] at hr
    rw [he] at hr
    simp only [hd] at hr
    simp only [deserializeFind, String.reduceEq, reduceIte,
      deserializeRecordProps] at hr
    split at hr
    · exact absurd hr (by simp)
    · rename_i rp2 hrp2
      simp only [Except.ok.injEq, Value.vobj.injEq] at hr
      obtain ⟨-, hrp⟩ := hr
      subst hrp
      exact deserializeAssign_get reg entry.shallow props rp2 k w hrp2 hk

/-- Witness for C10: a hand-crafted StyleExpression record carrying its
omit-listed _evaluator key, which deserialize restores. -/
theorem claim10_witness :
    ("_evaluator" ∈ styleExpressionEntry.shallow →
      propGet (PropList.cons "_evaluator" (Value.vnum 5) PropList.nil) "_evaluator"
        = some (Value.vnum 5))
    ∧ ("_evaluator" ∉ styleExpressionEntry.shallow →
      ∃ w2, deserialize demoRegistry (Value.vnum 5) = Except.ok w2
        ∧ propGet (PropList.cons "_evaluator" (Value.vnum 5) PropList.nil) "_evaluator"
            = some w2) :=
  claim10_omit_not_consulted demoRegistry "StyleExpression" "StyleExpression"
    styleExpressionEntry
    (PropList.cons "_evaluator" (Value.vnum 5) PropList.nil)
    (PropList.cons "_evaluator" (Value.vnum 5) PropList.nil)
    "_evaluator" (Value.vnum 5) rfl rfl (by rfl) rfl


end WebWorkerTransfer
